import Mathlib

/-!
Verification of the `linalg` matrix library (`matrix.go`).

The Go code works on `[][]float64`, and two scalar models are used.  The
primary shallow embedding models `float64` by the exact rationals `ℚ`:
every arithmetic step of the source is translated literally, with Go's
zero-value `0.0` as the default for the (never exercised, panic-free)
out-of-range reads.  This is the exact-arithmetic (no rounding, no
overflow) reading of the program; claims proved only in it either reach
exclusively values `float64` represents exactly (so the proof transfers
to the runtime) or are explicitly scoped to exact arithmetic.  A second
scalar model `GF` (rationals extended with the IEEE-754 special values
`±Inf` / `NaN` and overflow to infinity) re-translates the same source
for the claims that turn on IEEE-specific behaviour — `NaN`
non-reflexivity, overflow absorption, division by a zero pivot; on the
inputs those are evaluated at, every step agrees with the `float64`
runtime.

Error returns `(value, error)` of the Go code are modelled by
`Except String _` carrying the exact message strings of the source.
-/

deriving instance DecidableEq for Except

/-- Model of the Go struct `Matrix` (fields `lines`, `columns`, `data`),
polymorphic in the scalar so that both the `ℚ` model and the `GF` model
can reuse it. -/
structure GoMatrix (α : Type) where
  lines : ℕ
  columns : ℕ
  data : List (List α)
deriving DecidableEq

/-- Read `data[i][j]`; Go's zero value stands in for out-of-range reads
(the source never performs one on well-formed matrices). -/
def entry {α : Type} [Zero α] (d : List (List α)) (i j : ℕ) : α :=
  (d.getD i []).getD j 0

/-- The grid built by `make([][]float64, r)` followed by filling each of
the `r` rows (each `make([]float64, c)`) with `f i j`. -/
def buildData {α : Type} (f : ℕ → ℕ → α) (r c : ℕ) : List (List α) :=
  (List.range r).map fun i => (List.range c).map fun j => f i j

/-- The rectangularity invariant of the data model: `data` really has
`lines` rows of `columns` entries each, and a zero dimension means the
canonical empty matrix.  Every matrix the Go constructors can produce
satisfies it; the source indexes rows/columns without validating it. -/
def WellFormed {α : Type} (m : GoMatrix α) : Prop :=
  m.data.length = m.lines ∧ (∀ r ∈ m.data, r.length = m.columns) ∧
    (m.lines = 0 ↔ m.columns = 0)

instance {α : Type} (m : GoMatrix α) : Decidable (WellFormed m) := by
  unfold WellFormed; infer_instance

/-- Go global `empty_matrix`. -/
def empty_matrix {α : Type} : GoMatrix α := ⟨0, 0, []⟩

/-- Go `NewMatrix`: zero rows, or a first row of zero length, give the
canonical empty matrix; otherwise `lines`/`columns` are read off the grid. -/
def NewMatrix {α : Type} (data : List (List α)) : GoMatrix α :=
  if data.length = 0 then empty_matrix
  else if (data.headD []).length = 0 then empty_matrix
  else ⟨data.length, (data.headD []).length, data⟩

/-- Go `NullMatrix`: an `n×n` grid of zeros. -/
def NullMatrix (size : ℕ) : GoMatrix ℚ :=
  ⟨size, size, buildData (fun _ _ => 0) size size⟩

/-- Go `NewIdentityMatrix`: zero-filled square grid with `data[i][i] = 1`. -/
def NewIdentityMatrix (size : ℕ) : GoMatrix ℚ :=
  ⟨size, size, buildData (fun i j => if j = i then 1 else 0) size size⟩

namespace GoMatrix

/-- Go `Lines()`. -/
def Lines {α : Type} (m : GoMatrix α) : ℕ := m.lines

/-- Go `Columns()`. -/
def Columns {α : Type} (m : GoMatrix α) : ℕ := m.columns

end GoMatrix

/-- Outcome of `Position`: a value, an error return, or a Go runtime
panic (slice index out of range, possible because the `row`/`col`
arguments are signed `int`s and only upper bounds are checked first). -/
inductive PosResult where
  | ok (v : ℚ)
  | err (msg : String)
  | oob
deriving DecidableEq

/-- Go `Position(row, col)`, including the panic outcome for the index
combinations the source's four checks do not rule out. -/
def GoMatrix.Position (m : GoMatrix ℚ) (row col : Int) : PosResult :=
  if (m.lines : Int) < row then .err "row number is higher than the matrix's lines"
  else if (m.columns : Int) < col then .err "column number is higher than the matrix's columns"
  else if row = 0 then .err "invalid row"
  else if col = 0 then .err "invalid column"
  else if row < 0 ∨ col < 0 then .oob
  else match m.data[(row - 1).toNat]? with
    | none => .oob
    | some r =>
      match r[(col - 1).toNat]? with
      | none => .oob
      | some v => .ok v

/-- Go `Sum` (exact-arithmetic scalar model; `SumGF` below is the
IEEE special-value translation). -/
def GoMatrix.Sum (m B : GoMatrix ℚ) : Except String (GoMatrix ℚ) :=
  if m.lines ≠ B.lines ∨ m.columns ≠ B.columns then .error "Matrix size is not the same"
  else .ok (NewMatrix (buildData (fun i j => entry m.data i j + entry B.data i j) m.lines m.columns))

/-- Go `Sub` (exact-arithmetic scalar model; `SubGF` below is the
IEEE special-value translation). -/
def GoMatrix.Sub (m B : GoMatrix ℚ) : Except String (GoMatrix ℚ) :=
  if m.lines ≠ B.lines ∨ m.columns ≠ B.columns then .error "Matrix size is not the same"
  else .ok (NewMatrix (buildData (fun i j => entry m.data i j - entry B.data i j) m.lines m.columns))

/-- Go `ScalarProduct`. -/
def GoMatrix.ScalarProduct (m : GoMatrix ℚ) (scalar : ℚ) : GoMatrix ℚ :=
  NewMatrix (buildData (fun i j => entry m.data i j * scalar) m.lines m.columns)

/-- Go `Transpose`. -/
def GoMatrix.Transpose (m : GoMatrix ℚ) : GoMatrix ℚ :=
  NewMatrix (buildData (fun i j => entry m.data j i) m.columns m.lines)

/-- Go `Product`: inner-dimension check, then the triple loop
`data[i][j] += m.data[i][k] * B.data[k][j]`. -/
def GoMatrix.Product (m B : GoMatrix ℚ) : Except String (GoMatrix ℚ) :=
  if m.columns ≠ B.lines then .error "matrix B number of lines id different of matrix A number of columns"
  else .ok (NewMatrix (buildData
    (fun i j => ∑ k in Finset.range m.columns, entry m.data i k * entry B.data k j)
    m.lines B.columns))

/-- State of the `LU` main loop after `i` iterations: the pair
`(l_data, u_data)` as functions of the indices.  One iteration writes row
`i` of `u_data` (from columns `< i` of `l_data` and rows `< i` of
`u_data`) and then column `i` of `l_data` (from row `i` of `u_data`,
rows `< i` of `u_data` and columns `< i` of `l_data`), exactly as the two
inner `k`-loops of the source do; every cell is written exactly once, so
the imperative updates are these functional ones. -/
def luIter (a : ℕ → ℕ → ℚ) : ℕ → (ℕ → ℕ → ℚ) × (ℕ → ℕ → ℚ)
  | 0 => (fun _ _ => 0, fun _ _ => 0)
  | i + 1 =>
    let l := (luIter a i).1
    let u := (luIter a i).2
    let u' : ℕ → ℕ → ℚ := fun r k =>
      if r = i then a i k - ∑ j in Finset.range i, l i j * u j k else u r k
    let l' : ℕ → ℕ → ℚ := fun r c =>
      if c = i then
        (if r = i then 1
         else if u' i i = 0 then 0
         else (a r i - ∑ j in Finset.range i, l r j * u' j i) / u' i i)
      else l r c
    (l', u')

/-- Go `LU`: square check, `m.lines` iterations of the elimination loop,
then the two scratch grids are packaged through `NewMatrix`. -/
def GoMatrix.LU (m : GoMatrix ℚ) : Except String (GoMatrix ℚ × GoMatrix ℚ) :=
  if m.lines ≠ m.columns then
    .error "matrix can't be decomposed, number of lines and columns are different"
  else
    let st := luIter (fun i k => entry m.data i k) m.lines
    .ok (NewMatrix (buildData st.1 m.lines m.lines),
         NewMatrix (buildData st.2 m.lines m.lines))

/-- Go `Determinant`: empty and square checks, direct formulas for orders
1 and 2, and the product of `U`'s diagonal from `LU` otherwise (the
source discards `LU`'s error; that branch is unreachable because the
matrix is square there). -/
def GoMatrix.Determinant (m : GoMatrix ℚ) : Except String ℚ :=
  if m.lines = 0 ∨ m.columns = 0 then .error "empty matrix"
  else if m.lines ≠ m.columns then .error "matrix must be square"
  else if m.lines = 1 then .ok (entry m.data 0 0)
  else if m.lines = 2 then
    .ok (entry m.data 0 0 * entry m.data 1 1 - entry m.data 0 1 * entry m.data 1 0)
  else
    match m.LU with
    | .ok (_, U) => .ok (∏ i in Finset.range U.lines, entry U.data i i)
    | .error e => .error e

/-- Go `Equals`: `false` on a shape mismatch, otherwise entrywise
comparison over all `lines × columns` positions (exact-arithmetic scalar
model, where `!=` is rational disequality; `EqualsGF` below is the IEEE
translation whose `!=` is non-reflexive at `NaN`). -/
def GoMatrix.Equals (m B : GoMatrix ℚ) : Bool :=
  if m.lines ≠ B.lines ∨ m.columns ≠ B.columns then false
  else (List.range m.lines).all fun i =>
    (List.range m.columns).all fun j => decide (entry m.data i j = entry B.data i j)

/-- The augmented `order × 2·order` grid of `Inverse`: left half a copy
of the matrix, right half the identity. -/
def augInit (m : GoMatrix ℚ) : ℕ → ℕ → ℚ := fun i j =>
  if j < m.lines then entry m.data i j
  else if j = i + m.lines then 1 else 0

/-- Row interchange on a grid. -/
def swapRows (aug : ℕ → ℕ → ℚ) (r s : ℕ) : ℕ → ℕ → ℚ := fun p k =>
  if p = r then aug s k else if p = s then aug r k else aug p k

/-- The single descending swap pass of `Inverse`
(`for i := order-1; i > 0; i--`): at counter `i+1` it compares
`augmented[i][0] < augmented[i+1][0]` and swaps those two rows. -/
def swapLoop (aug : ℕ → ℕ → ℚ) : ℕ → (ℕ → ℕ → ℚ)
  | 0 => aug
  | i + 1 => swapLoop (if aug i 0 < aug (i + 1) 0 then swapRows aug i (i + 1) else aug) i

/-- One row operation of the elimination loop: with
`temp = augmented[j][i] / augmented[i][i]` (read before any write),
`augmented[j][k] -= augmented[i][k] * temp` for every `k`. -/
def elimStep (aug : ℕ → ℕ → ℚ) (i j : ℕ) : ℕ → ℕ → ℚ := fun r k =>
  if r = j then aug j k - aug i k * (aug j i / aug i i) else aug r k

/-- The double elimination loop of `Inverse` (`for i... for j... if j != i`). -/
def gjElim (order : ℕ) (aug : ℕ → ℕ → ℚ) : ℕ → ℕ → ℚ :=
  (List.range order).foldl
    (fun a i => (List.range order).foldl
      (fun a2 j => if j = i then a2 else elimStep a2 i j) a) aug

/-- The normalization loop of `Inverse`: each row is divided by its
diagonal entry (`temp` read before the row is touched). -/
def gjNorm (order : ℕ) (aug : ℕ → ℕ → ℚ) : ℕ → ℕ → ℚ :=
  (List.range order).foldl
    (fun a i => fun r k => if r = i then a i k / a i i else a r k) aug

/-- Go `Inverse`: square check, determinant check (propagating its
error), zero-determinant check, then Gauss-Jordan on the augmented grid
and extraction of the right half. -/
def GoMatrix.Inverse (m : GoMatrix ℚ) : Except String (GoMatrix ℚ) :=
  if m.lines ≠ m.columns then .error "matrix musts be square"
  else
    match m.Determinant with
    | .error e => .error e
    | .ok det =>
      if det = 0 then .error "determinant is zero. Matrix cannot be inverted"
      else
        let order := m.lines
        let aug3 := gjNorm order (gjElim order (swapLoop (augInit m) (order - 1)))
        .ok (NewMatrix (buildData (fun i j => aug3 i (order + j)) order order))

/-! ### The IEEE special-value scalar model `GF`

The claims about IEEE-specific behaviour — `NaN`, `Inf`, overflow — need
a scalar with the IEEE-754 special values.  `GF` is a rational together
with `±Inf` and `NaN`: finite arithmetic is exact except that a result of
magnitude at least `2^1024` overflows to a signed infinity, exactly as
`float64` does (every concrete evaluation below reaches only values that
`float64` represents exactly, or crosses the overflow threshold outright,
so on those inputs `GF` agrees step by step with the Go runtime); the
special values follow the IEEE rules implemented by Go's `float64`
operators.  Gradual rounding of in-range results is not modelled: the
exact-`ℚ` development above is the no-rounding reading, and `GF` captures
the special-value behaviour. -/

inductive GF where
  | fin (q : ℚ)
  | inf (neg : Bool)
  | nan
deriving DecidableEq

instance : Zero GF := ⟨GF.fin 0⟩

/-- Package an exact finite result, overflowing to a signed infinity at
the IEEE `float64` overflow threshold `2^1024`. -/
def GF.mkFin (q : ℚ) : GF :=
  if (2 : ℚ) ^ 1024 ≤ q then inf false
  else if q ≤ -((2 : ℚ) ^ 1024) then inf true
  else fin q

/-- IEEE `+`. -/
def GF.add : GF → GF → GF
  | nan, _ => nan
  | _, nan => nan
  | fin q, fin r => mkFin (q + r)
  | fin _, inf b => inf b
  | inf b, fin _ => inf b
  | inf b, inf c => if b = c then inf b else nan

/-- IEEE `-`. -/
def GF.sub : GF → GF → GF
  | nan, _ => nan
  | _, nan => nan
  | fin q, fin r => mkFin (q - r)
  | fin _, inf b => inf (!b)
  | inf b, fin _ => inf b
  | inf b, inf c => if b = c then nan else inf b

/-- IEEE `*` (`0 · ∞ = NaN`). -/
def GF.mul : GF → GF → GF
  | nan, _ => nan
  | _, nan => nan
  | fin q, fin r => mkFin (q * r)
  | fin q, inf b => if q = 0 then nan else inf (xor b (if q < 0 then true else false))
  | inf b, fin q => if q = 0 then nan else inf (xor b (if q < 0 then true else false))
  | inf b, inf c => inf (xor b c)

/-- IEEE `/` (`x/±0` is a signed infinity for `x ≠ 0`, `0/0 = NaN`; the
zeros reached in the evaluations below are `+0`). -/
def GF.div : GF → GF → GF
  | nan, _ => nan
  | _, nan => nan
  | fin q, fin r =>
    if r = 0 then (if q = 0 then nan else inf (if q < 0 then true else false))
    else mkFin (q / r)
  | fin _, inf _ => fin 0
  | inf b, fin r => inf (xor b (if r < 0 then true else false))
  | inf _, inf _ => nan

/-- IEEE `<` (`false` whenever `NaN` is involved). -/
def GF.flt : GF → GF → Bool
  | nan, _ => false
  | _, nan => false
  | fin q, fin r => if q < r then true else false
  | inf b, fin _ => b
  | fin _, inf b => !b
  | inf b, inf c => b && !c

/-- IEEE `==` (`false` whenever `NaN` is involved). -/
def GF.feq : GF → GF → Bool
  | nan, _ => false
  | _, nan => false
  | fin q, fin r => if q = r then true else false
  | inf b, inf c => b = c
  | _, _ => false

/-- Whether the value is `NaN` or an infinity. -/
def GF.nonfinite : GF → Bool
  | fin _ => false
  | _ => true

/-- The Go accumulation loop `sum := 0.; for j := 0; j < n; j++ { sum += f(j) }`
over `float64`. -/
def sumFoldGF (f : ℕ → GF) (n : ℕ) : GF :=
  (List.range n).foldl (fun s j => s.add (f j)) (GF.fin 0)

/-- `luIter` re-translated from the same Go `LU` loops, with `float64`
modelled by `GF` instead of `ℚ` (the zero-pivot test is Go's `== 0` on
`float64`, hence `GF.feq`). -/
def luIterGF (a : ℕ → ℕ → GF) : ℕ → (ℕ → ℕ → GF) × (ℕ → ℕ → GF)
  | 0 => (fun _ _ => GF.fin 0, fun _ _ => GF.fin 0)
  | i + 1 =>
    let l := (luIterGF a i).1
    let u := (luIterGF a i).2
    let u' : ℕ → ℕ → GF := fun r k =>
      if r = i then (a i k).sub (sumFoldGF (fun j => (l i j).mul (u j k)) i) else u r k
    let l' : ℕ → ℕ → GF := fun r c =>
      if c = i then
        (if r = i then GF.fin 1
         else if (u' i i).feq (GF.fin 0) then GF.fin 0
         else ((a r i).sub (sumFoldGF (fun j => (l r j).mul (u' j i)) i)).div (u' i i))
      else l r c
    (l', u')

/-- Go `LU` over `float64` modelled by `GF`. -/
def LUGF (m : GoMatrix GF) : Except String (GoMatrix GF × GoMatrix GF) :=
  if m.lines ≠ m.columns then
    .error "matrix can't be decomposed, number of lines and columns are different"
  else
    let st := luIterGF (fun i k => entry m.data i k) m.lines
    .ok (NewMatrix (buildData st.1 m.lines m.lines),
         NewMatrix (buildData st.2 m.lines m.lines))

/-- Go `Determinant` over `float64` modelled by `GF` (the `diag *=` loop
becomes a `foldl` with IEEE multiplication). -/
def DeterminantGF (m : GoMatrix GF) : Except String GF :=
  if m.lines = 0 ∨ m.columns = 0 then .error "empty matrix"
  else if m.lines ≠ m.columns then .error "matrix must be square"
  else if m.lines = 1 then .ok (entry m.data 0 0)
  else if m.lines = 2 then
    .ok (((entry m.data 0 0).mul (entry m.data 1 1)).sub
      ((entry m.data 0 1).mul (entry m.data 1 0)))
  else
    match LUGF m with
    | .ok (_, U) =>
      .ok ((List.range U.lines).foldl (fun p i => p.mul (entry U.data i i)) (GF.fin 1))
    | .error e => .error e

/-- The augmented grid of Go `Inverse`, over `GF`. -/
def augInitGF (m : GoMatrix GF) : ℕ → ℕ → GF := fun i j =>
  if j < m.lines then entry m.data i j
  else if j = i + m.lines then GF.fin 1 else GF.fin 0

/-- Row interchange on a `GF` grid. -/
def swapRowsGF (aug : ℕ → ℕ → GF) (r s : ℕ) : ℕ → ℕ → GF := fun p k =>
  if p = r then aug s k else if p = s then aug r k else aug p k

/-- The descending swap pass of Go `Inverse`, with the `float64` `<`. -/
def swapLoopGF (aug : ℕ → ℕ → GF) : ℕ → (ℕ → ℕ → GF)
  | 0 => aug
  | i + 1 =>
    swapLoopGF (if (aug i 0).flt (aug (i + 1) 0) then swapRowsGF aug i (i + 1) else aug) i

/-- One elimination row operation of Go `Inverse` over `GF`:
`temp = augmented[j][i] / augmented[i][i]` (no zero check), then
`augmented[j][k] -= augmented[i][k] * temp`. -/
def elimStepGF (aug : ℕ → ℕ → GF) (i j : ℕ) : ℕ → ℕ → GF := fun r k =>
  if r = j then (aug j k).sub ((aug i k).mul ((aug j i).div (aug i i))) else aug r k

/-- The double elimination loop of Go `Inverse` over `GF`. -/
def gjElimGF (order : ℕ) (aug : ℕ → ℕ → GF) : ℕ → ℕ → GF :=
  (List.range order).foldl
    (fun a i => (List.range order).foldl
      (fun a2 j => if j = i then a2 else elimStepGF a2 i j) a) aug

/-- The normalization loop of Go `Inverse` over `GF`. -/
def gjNormGF (order : ℕ) (aug : ℕ → ℕ → GF) : ℕ → ℕ → GF :=
  (List.range order).foldl
    (fun a i => fun r k => if r = i then (a i k).div (a i i) else a r k) aug

/-- Go `Inverse` over `float64` modelled by `GF`: the zero-determinant
test is Go's `det == 0`, and the elimination/normalization divisions are
IEEE divisions that silently produce `±Inf`/`NaN` on a zero pivot. -/
def InverseGF (m : GoMatrix GF) : Except String (GoMatrix GF) :=
  if m.lines ≠ m.columns then .error "matrix musts be square"
  else
    match DeterminantGF m with
    | .error e => .error e
    | .ok det =>
      if det.feq (GF.fin 0) then .error "determinant is zero. Matrix cannot be inverted"
      else
        let order := m.lines
        let aug3 := gjNormGF order (gjElimGF order (swapLoopGF (augInitGF m) (order - 1)))
        .ok (NewMatrix (buildData (fun i j => aug3 i (order + j)) order order))

/-- Whether some entry of the grid, over the stated ranges, is `NaN` or
infinite. -/
def hasNonfinite (m : GoMatrix GF) : Bool :=
  (List.range m.lines).any fun i =>
    (List.range m.columns).any fun j => (entry m.data i j).nonfinite

/-- Whether some entry of the grid, over the stated ranges, is `NaN`. -/
def hasNaN (m : GoMatrix GF) : Bool :=
  (List.range m.lines).any fun i =>
    (List.range m.columns).any fun j => decide (entry m.data i j = GF.nan)

/-- Go `Sum` over `float64` modelled by `GF`. -/
def SumGF (m B : GoMatrix GF) : Except String (GoMatrix GF) :=
  if m.lines ≠ B.lines ∨ m.columns ≠ B.columns then .error "Matrix size is not the same"
  else .ok (NewMatrix
    (buildData (fun i j => (entry m.data i j).add (entry B.data i j)) m.lines m.columns))

/-- Go `Sub` over `float64` modelled by `GF`. -/
def SubGF (m B : GoMatrix GF) : Except String (GoMatrix GF) :=
  if m.lines ≠ B.lines ∨ m.columns ≠ B.columns then .error "Matrix size is not the same"
  else .ok (NewMatrix
    (buildData (fun i j => (entry m.data i j).sub (entry B.data i j)) m.lines m.columns))

/-- Go `Equals` over `float64` modelled by `GF`: the entry comparison is
the IEEE `!=`, i.e. the loop returns `true` iff every pair of
corresponding entries satisfies the IEEE `==` (`GF.feq`). -/
def EqualsGF (m B : GoMatrix GF) : Bool :=
  if m.lines ≠ B.lines ∨ m.columns ≠ B.columns then false
  else (List.range m.lines).all fun i =>
    (List.range m.columns).all fun j => (entry m.data i j).feq (entry B.data i j)

/-! ### Basic lemmas about grids and constructors -/

lemma buildData_length {α : Type} (f : ℕ → ℕ → α) (r c : ℕ) :
    (buildData f r c).length = r := by
  simp [buildData]

lemma entry_buildData {α : Type} [Zero α] (f : ℕ → ℕ → α) {r c i j : ℕ}
    (hi : i < r) (hj : j < c) : entry (buildData f r c) i j = f i j := by
  unfold entry buildData
  simp [List.getD_eq_getElem?_getD, List.getElem?_map, List.getElem?_range, hi, hj]

lemma buildData_headD {α : Type} (f : ℕ → ℕ → α) (r' c : ℕ) :
    (buildData f (r' + 1) c).headD [] = (List.range c).map (f 0) := by
  simp [buildData, List.range_succ_eq_map]

lemma NewMatrix_buildData {α : Type} (f : ℕ → ℕ → α) {r c : ℕ}
    (hr : 0 < r) (hc : 0 < c) :
    NewMatrix (buildData f r c) = ⟨r, c, buildData f r c⟩ := by
  cases r with
  | zero => exact absurd hr (lt_irrefl 0)
  | succ r' =>
    simp only [NewMatrix, buildData_length, buildData_headD, List.length_map,
      List.length_range]
    rw [if_neg (by omega), if_neg (by omega)]

lemma Equals_eq_true_iff (m B : GoMatrix ℚ) :
    m.Equals B = true ↔ m.lines = B.lines ∧ m.columns = B.columns ∧
      ∀ i < m.lines, ∀ j < m.columns, entry m.data i j = entry B.data i j := by
  unfold GoMatrix.Equals
  by_cases h : m.lines ≠ B.lines ∨ m.columns ≠ B.columns
  · rw [if_pos h]
    simp only [Bool.false_eq_true, false_iff]
    rintro ⟨h1, h2, -⟩
    rcases h with h | h
    · exact h h1
    · exact h h2
  · push_neg at h
    rw [if_neg (by push_neg; exact h)]
    simp [List.all_eq_true, List.mem_range, h.1, h.2]

lemma Equals_refl (m : GoMatrix ℚ) : m.Equals m = true := by
  rw [Equals_eq_true_iff]
  exact ⟨rfl, rfl, fun _ _ _ _ => rfl⟩

lemma Equals_comm (m B : GoMatrix ℚ) : m.Equals B = B.Equals m := by
  rw [Bool.eq_iff_iff, Equals_eq_true_iff, Equals_eq_true_iff]
  constructor
  · rintro ⟨h1, h2, h3⟩
    exact ⟨h1.symm, h2.symm, fun i hi j hj => (h3 i (h1 ▸ hi) j (h2 ▸ hj)).symm⟩
  · rintro ⟨h1, h2, h3⟩
    exact ⟨h1.symm, h2.symm, fun i hi j hj => (h3 i (h1 ▸ hi) j (h2 ▸ hj)).symm⟩

/-! ### The Doolittle recurrences satisfied by the `LU` scratch grids -/

/-- Row `r` of `u_data` after iteration `m` (a definitional unfolding of
one step of `luIter`). -/
lemma luIter_snd_succ (a : ℕ → ℕ → ℚ) (m r k : ℕ) :
    (luIter a (m + 1)).2 r k =
      if r = m then a m k - ∑ j in Finset.range m, (luIter a m).1 m j * (luIter a m).2 j k
      else (luIter a m).2 r k := rfl

/-- Column `c` of `l_data` after iteration `m` (definitional unfolding). -/
lemma luIter_fst_succ (a : ℕ → ℕ → ℚ) (m r c : ℕ) :
    (luIter a (m + 1)).1 r c =
      if c = m then
        (if r = m then 1
         else if (luIter a (m + 1)).2 m m = 0 then 0
         else (a r m - ∑ j in Finset.range m, (luIter a m).1 r j * (luIter a (m + 1)).2 j m) /
           (luIter a (m + 1)).2 m m)
      else (luIter a m).1 r c := rfl

/-- The final value of `u_data[i][k]`: it is written in iteration `i` and
never changed afterwards. -/
def Ufin (a : ℕ → ℕ → ℚ) (i k : ℕ) : ℚ := (luIter a (i + 1)).2 i k

/-- The final value of `l_data[r][c]`: it is written in iteration `c` and
never changed afterwards. -/
def Lfin (a : ℕ → ℕ → ℚ) (r c : ℕ) : ℚ := (luIter a (c + 1)).1 r c

lemma luIter_fst_stab (a : ℕ → ℕ → ℚ) :
    ∀ m r c, c < m → (luIter a m).1 r c = Lfin a r c := by
  intro m
  induction m with
  | zero => intro r c hc; omega
  | succ m ih =>
    intro r c hc
    by_cases hcm : c = m
    · subst hcm; rfl
    · rw [luIter_fst_succ, if_neg hcm]
      exact ih r c (by omega)

lemma luIter_snd_stab (a : ℕ → ℕ → ℚ) :
    ∀ m r k, r < m → (luIter a m).2 r k = Ufin a r k := by
  intro m
  induction m with
  | zero => intro r k hr; omega
  | succ m ih =>
    intro r k hr
    by_cases hrm : r = m
    · subst hrm; rfl
    · rw [luIter_snd_succ, if_neg hrm]
      exact ih r k (by omega)

/-- The upper recurrence of the source:
`U[i][k] = A[i][k] − Σ_{j<i} L[i][j]·U[j][k]`. -/
lemma Ufin_eq (a : ℕ → ℕ → ℚ) (i k : ℕ) :
    Ufin a i k = a i k - ∑ j in Finset.range i, Lfin a i j * Ufin a j k := by
  unfold Ufin
  rw [luIter_snd_succ, if_pos rfl]
  congr 1
  refine Finset.sum_congr rfl fun j hj => ?_
  rw [Finset.mem_range] at hj
  rw [luIter_fst_stab a i i j hj, luIter_snd_stab a i j k hj]
  rfl

/-- `L[i][i] = 1` (the `i == k` branch of the lower loop). -/
lemma Lfin_diag (a : ℕ → ℕ → ℚ) (i : ℕ) : Lfin a i i = 1 := by
  unfold Lfin
  rw [luIter_fst_succ, if_pos rfl, if_pos rfl]

/-- The lower recurrence of the source, including the zero-pivot guard:
`L[r][i] = (A[r][i] − Σ_{j<i} L[r][j]·U[j][i]) / U[i][i]` when the pivot
is non-zero, and `0` when it is zero. -/
lemma Lfin_eq (a : ℕ → ℕ → ℚ) (r i : ℕ) (h : r ≠ i) :
    Lfin a r i =
      if Ufin a i i = 0 then 0
      else (a r i - ∑ j in Finset.range i, Lfin a r j * Ufin a j i) / Ufin a i i := by
  unfold Lfin
  rw [luIter_fst_succ, if_pos rfl, if_neg h]
  have hsum : ∑ j in Finset.range i, (luIter a i).1 r j * (luIter a (i + 1)).2 j i =
      ∑ j in Finset.range i, Lfin a r j * Ufin a j i := by
    refine Finset.sum_congr rfl fun j hj => ?_
    rw [Finset.mem_range] at hj
    rw [luIter_fst_stab a i r j hj, luIter_snd_stab a (i + 1) j i (by omega)]
  rw [hsum]
  rfl

lemma sum_range_split (f : ℕ → ℚ) {k i : ℕ} (h : k ≤ i) :
    ∑ j in Finset.range i, f j =
      (∑ j in Finset.range k, f j) + ∑ j in Finset.Ico k i, f j := by
  rw [Finset.range_eq_Ico]
  exact (Finset.sum_Ico_consecutive f (Nat.zero_le k) h).symm

/-- `l_data` ends up with zeros above the diagonal, with no hypothesis on
the matrix: the numerator of the lower recurrence vanishes there, and the
zero-pivot guard writes a literal `0`. -/
lemma Lfin_above (a : ℕ → ℕ → ℚ) : ∀ c r, r < c → Lfin a r c = 0 := by
  intro c
  induction c using Nat.strong_induction_on with
  | _ c ih =>
    intro r hr
    have hnum : a r c - ∑ j in Finset.range c, Lfin a r j * Ufin a j c = 0 := by
      have hsplit := sum_range_split (fun j => Lfin a r j * Ufin a j c) (le_of_lt hr)
      have hico : ∑ j in Finset.Ico r c, Lfin a r j * Ufin a j c = Ufin a r c := by
        rw [Finset.sum_eq_single_of_mem r (Finset.mem_Ico.mpr ⟨le_refl r, hr⟩)]
        · rw [Lfin_diag, one_mul]
        · intro b hb hbr
          have hrb : r < b := lt_of_le_of_ne (Finset.mem_Ico.mp hb).1 (Ne.symm hbr)
          rw [ih b (Finset.mem_Ico.mp hb).2 r hrb, zero_mul]
      have hu := Ufin_eq a r c
      rw [hsplit, hico]
      linarith
    rw [Lfin_eq a r c (Nat.ne_of_lt hr), hnum]
    split
    · rfl
    · rw [zero_div]

/-- The product identity `A = L·U` holds for every square matrix, with no
hypothesis at all: the upper recurrence is exactly
`A[i][k] = U[i][k] + Σ_{j<i} L[i][j]·U[j][k]`, `L[i][i] = 1`, and the
entries of `L` above the diagonal are `0`. -/
lemma lu_product (a : ℕ → ℕ → ℚ) {n i : ℕ} (hi : i < n) (k : ℕ) :
    ∑ j in Finset.range n, Lfin a i j * Ufin a j k = a i k := by
  rw [sum_range_split (fun j => Lfin a i j * Ufin a j k) (show i + 1 ≤ n from hi)]
  have h2 : ∑ j in Finset.Ico (i + 1) n, Lfin a i j * Ufin a j k = 0 := by
    refine Finset.sum_eq_zero fun j hj => ?_
    rw [Lfin_above a j i (by exact (Finset.mem_Ico.mp hj).1), zero_mul]
  rw [h2, Finset.sum_range_succ, Lfin_diag, one_mul, Ufin_eq]
  ring

/-- The leading principal `m × m` minor of the grid `a`. -/
def leadingMinor (a : ℕ → ℕ → ℚ) (m : ℕ) : Matrix (Fin m) (Fin m) ℚ :=
  Matrix.of fun p q => a p q

/-- Under non-zero leading principal minors, the computed `U` is upper
triangular with non-zero diagonal (so the zero-pivot guard never fires). -/
lemma pivots_of_minors (a : ℕ → ℕ → ℚ) {n : ℕ}
    (hmin : ∀ m, m < n → (leadingMinor a (m + 1)).det ≠ 0) :
    ∀ i, i < n → (∀ k, k < i → Ufin a i k = 0) ∧ Ufin a i i ≠ 0 := by
  intro i
  induction i using Nat.strong_induction_on with
  | _ i ih =>
    intro hin
    have hUtri : ∀ k, k < i → Ufin a i k = 0 := by
      intro k hk
      have hUkk : Ufin a k k ≠ 0 := (ih k hk (by omega)).2
      have hLik := Lfin_eq a i k (by omega)
      rw [if_neg hUkk] at hLik
      have haik : a i k =
          Lfin a i k * Ufin a k k + ∑ j in Finset.range k, Lfin a i j * Ufin a j k := by
        rw [hLik, div_mul_cancel₀ _ hUkk]
        ring
      rw [Ufin_eq, sum_range_split (fun j => Lfin a i j * Ufin a j k) (le_of_lt hk)]
      have hico : ∑ j in Finset.Ico k i, Lfin a i j * Ufin a j k =
          Lfin a i k * Ufin a k k := by
        rw [Finset.sum_eq_single_of_mem k (Finset.mem_Ico.mpr ⟨le_refl k, hk⟩)]
        intro b hb hbk
        have h1 : k < b := lt_of_le_of_ne (Finset.mem_Ico.mp hb).1 (Ne.symm hbk)
        have h2 : b < i := (Finset.mem_Ico.mp hb).2
        rw [(ih b h2 (by omega)).1 k h1, mul_zero]
      rw [hico, haik]
      ring
    refine ⟨hUtri, ?_⟩
    have hfact : leadingMinor a (i + 1) =
        (Matrix.of fun p q : Fin (i + 1) => Lfin a p q) *
          (Matrix.of fun p q : Fin (i + 1) => Ufin a p q) := by
      ext p q
      rw [Matrix.mul_apply]
      show a (p : ℕ) (q : ℕ) = _
      have h1 := lu_product a (show (p : ℕ) < i + 1 from p.isLt) (q : ℕ)
      rw [← Fin.sum_univ_eq_sum_range (fun j => Lfin a (p : ℕ) j * Ufin a j (q : ℕ))
        (i + 1)] at h1
      exact h1.symm
    have hdetL : (Matrix.of fun p q : Fin (i + 1) => Lfin a p q).det = 1 := by
      rw [Matrix.det_of_lowerTriangular]
      · exact Finset.prod_eq_one fun p _ => Lfin_diag a p
      · intro p q hpq
        have hlt : (p : ℕ) < (q : ℕ) := hpq
        show Lfin a (p : ℕ) (q : ℕ) = 0
        exact Lfin_above a q p hlt
    have hdetU : (Matrix.of fun p q : Fin (i + 1) => Ufin a p q).det =
        ∏ p : Fin (i + 1), Ufin a (p : ℕ) (p : ℕ) := by
      apply Matrix.det_of_upperTriangular
      intro p q hqp
      have hlt : (q : ℕ) < (p : ℕ) := hqp
      show Ufin a (p : ℕ) (q : ℕ) = 0
      by_cases hpi : (p : ℕ) = i
      · rw [hpi]
        exact hUtri q (by omega)
      · have hpn : (p : ℕ) < i := by have := p.isLt; omega
        exact (ih (p : ℕ) hpn (by omega)).1 q hlt
    have hdet := hmin i hin
    rw [hfact, Matrix.det_mul, hdetL, hdetU, one_mul] at hdet
    have := Finset.prod_ne_zero_iff.mp hdet ⟨i, by omega⟩ (Finset.mem_univ _)
    simpa using this

lemma buildData_getD {α : Type} (f : ℕ → ℕ → α) {r i : ℕ} (c : ℕ) (hi : i < r) :
    (buildData f r c).getD i [] = (List.range c).map (f i) := by
  unfold buildData
  rw [List.getD_eq_getElem?_getD, List.getElem?_map, List.getElem?_range hi]
  rfl

lemma entry_buildData_out {α : Type} [Zero α] (f : ℕ → ℕ → α) {r c i j : ℕ}
    (h : r ≤ i ∨ c ≤ j) : entry (buildData f r c) i j = 0 := by
  by_cases hi : i < r
  · have hj : c ≤ j := by rcases h with h | h; omega; exact h
    unfold entry
    rw [buildData_getD f c hi, List.getD_eq_default]
    rw [List.length_map, List.length_range]
    exact hj
  · unfold entry
    have h1 : (buildData f r c).getD i [] = ([] : List α) := by
      apply List.getD_eq_default
      rw [buildData_length]
      omega
    rw [h1]
    simp

/-- The grid of `NewIdentityMatrix n`, as the `LU`/`Determinant` loops read it. -/
def idA (n : ℕ) : ℕ → ℕ → ℚ := fun i k => entry (NewIdentityMatrix n).data i k

lemma idA_eq (n i k : ℕ) : idA n i k = if k = i ∧ i < n then 1 else 0 := by
  show entry (buildData (fun i j => if j = i then (1 : ℚ) else 0) n n) i k = _
  by_cases hi : i < n
  · by_cases hk : k < n
    · rw [entry_buildData _ hi hk]
      by_cases hki : k = i
      · rw [if_pos hki, if_pos ⟨hki, hi⟩]
      · rw [if_neg hki, if_neg (fun h => hki h.1)]
    · rw [entry_buildData_out _ (Or.inr (by omega)), if_neg (by omega)]
  · rw [entry_buildData_out _ (Or.inl (by omega)), if_neg (by omega)]

/-- On the identity grid the Doolittle loops reproduce the identity:
`U` is the identity block and `L` is the identity. -/
lemma lu_identity (n : ℕ) : ∀ c,
    (c < n → ∀ k, Ufin (idA n) c k = idA n c k) ∧
    (c < n → ∀ r, Lfin (idA n) r c = if r = c then 1 else 0) := by
  intro c
  induction c using Nat.strong_induction_on with
  | _ c ih =>
    have hU : c < n → ∀ k, Ufin (idA n) c k = idA n c k := by
      intro hc k
      rw [Ufin_eq]
      have hz : ∑ j in Finset.range c, Lfin (idA n) c j * Ufin (idA n) j k = 0 := by
        refine Finset.sum_eq_zero fun j hj => ?_
        rw [Finset.mem_range] at hj
        rw [(ih j hj).2 (by omega) c, if_neg (by omega), zero_mul]
      rw [hz]
      ring
    refine ⟨hU, fun hc r => ?_⟩
    by_cases hrc : r = c
    · rw [hrc, Lfin_diag, if_pos rfl]
    · have hUcc : Ufin (idA n) c c = 1 := by
        rw [hU hc c, idA_eq, if_pos ⟨rfl, hc⟩]
      rw [Lfin_eq (idA n) r c hrc, hUcc, if_neg one_ne_zero]
      have hz : ∑ j in Finset.range c, Lfin (idA n) r j * Ufin (idA n) j c = 0 := by
        refine Finset.sum_eq_zero fun j hj => ?_
        rw [Finset.mem_range] at hj
        rw [(ih j hj).2 (by omega) r]
        by_cases hrj : r = j
        · rw [if_pos hrj, one_mul, (ih j hj).1 (by omega) c, idA_eq, if_neg (by omega)]
        · rw [if_neg hrj, zero_mul]
      rw [hz, idA_eq, if_neg (by omega), if_neg hrc]
      norm_num

lemma LU_ok (m : GoMatrix ℚ) (hsq : m.lines = m.columns) :
    m.LU = .ok
      (NewMatrix (buildData (luIter (fun i k => entry m.data i k) m.lines).1 m.lines m.lines),
       NewMatrix (buildData (luIter (fun i k => entry m.data i k) m.lines).2 m.lines m.lines)) := by
  unfold GoMatrix.LU
  rw [if_neg (by omega)]

/-- For a square matrix of order at least 3, `Determinant` returns the
product of the diagonal of the computed `u_data`. -/
lemma Determinant_ge3 (m : GoMatrix ℚ) (hsq : m.lines = m.columns) (h3 : 3 ≤ m.lines) :
    m.Determinant = .ok (∏ i in Finset.range m.lines,
      (luIter (fun i k => entry m.data i k) m.lines).2 i i) := by
  unfold GoMatrix.Determinant
  rw [if_neg (by omega), if_neg (by omega), if_neg (by omega), if_neg (by omega), LU_ok m hsq]
  rw [NewMatrix_buildData ((luIter (fun i k => entry m.data i k) m.lines).2)
    (show 0 < m.lines by omega) (show 0 < m.lines by omega)]
  show Except.ok (∏ i in Finset.range m.lines,
    entry (buildData (luIter (fun i k => entry m.data i k) m.lines).2 m.lines m.lines) i i) = _
  refine congrArg Except.ok (Finset.prod_congr rfl fun i hi => ?_)
  rw [Finset.mem_range] at hi
  exact entry_buildData _ hi hi

/-- For a square non-empty matrix, `Determinant` always succeeds. -/
lemma Determinant_ok (m : GoMatrix ℚ) (hsq : m.lines = m.columns) (hne : m.lines ≠ 0) :
    ∃ d, m.Determinant = .ok d := by
  by_cases h1 : m.lines = 1
  · refine ⟨entry m.data 0 0, ?_⟩
    unfold GoMatrix.Determinant
    rw [if_neg (by omega), if_neg (by omega), if_pos h1]
  · by_cases h2 : m.lines = 2
    · refine ⟨entry m.data 0 0 * entry m.data 1 1 - entry m.data 0 1 * entry m.data 1 0, ?_⟩
      unfold GoMatrix.Determinant
      rw [if_neg (by omega), if_neg (by omega), if_neg h1, if_pos h2]
    · exact ⟨_, Determinant_ge3 m hsq (by omega)⟩

lemma Determinant_empty (m : GoMatrix ℚ) (h : m.lines = 0 ∨ m.columns = 0) :
    m.Determinant = .error "empty matrix" := by
  unfold GoMatrix.Determinant
  rw [if_pos h]

lemma Determinant_identity {n : ℕ} (hn : 1 ≤ n) :
    (NewIdentityMatrix n).Determinant = .ok 1 := by
  by_cases h1 : n = 1
  · subst h1
    decide
  · by_cases h2 : n = 2
    · subst h2
      have he : ∀ i j : ℕ, entry (NewIdentityMatrix 2).data i j = idA 2 i j := fun _ _ => rfl
      have hl : (NewIdentityMatrix 2).lines = 2 := rfl
      have hc : (NewIdentityMatrix 2).columns = 2 := rfl
      unfold GoMatrix.Determinant
      rw [hl, hc]
      rw [if_neg (by omega), if_neg (by omega), if_neg (by omega), if_pos rfl]
      rw [he, he, he, he, idA_eq, idA_eq, idA_eq, idA_eq]
      norm_num
    · have h3 : 3 ≤ n := by omega
      rw [Determinant_ge3 _ rfl (by exact h3)]
      have hl : (NewIdentityMatrix n).lines = n := rfl
      rw [hl]
      have hdiag : ∀ i ∈ Finset.range n,
          (luIter (fun i k => entry (NewIdentityMatrix n).data i k) n).2 i i = 1 := by
        intro i hi
        rw [Finset.mem_range] at hi
        show (luIter (idA n) n).2 i i = 1
        rw [luIter_snd_stab (idA n) n i i hi]
        show Ufin (idA n) i i = 1
        rw [(lu_identity n i).1 hi i, idA_eq, if_pos ⟨rfl, hi⟩]
      rw [Finset.prod_congr rfl hdiag, Finset.prod_const_one]

lemma Inverse_notSquare (m : GoMatrix ℚ) (h : m.lines ≠ m.columns) :
    m.Inverse = .error "matrix musts be square" := by
  unfold GoMatrix.Inverse
  rw [if_pos h]

lemma Inverse_detErr (m : GoMatrix ℚ) (hsq : m.lines = m.columns) {e : String}
    (hd : m.Determinant = .error e) : m.Inverse = .error e := by
  unfold GoMatrix.Inverse
  rw [if_neg (by omega), hd]

lemma Inverse_singular (m : GoMatrix ℚ) (hsq : m.lines = m.columns)
    (hd : m.Determinant = .ok 0) :
    m.Inverse = .error "determinant is zero. Matrix cannot be inverted" := by
  unfold GoMatrix.Inverse
  rw [if_neg (by omega), hd]
  show (if (0 : ℚ) = 0 then _ else _) = _
  rw [if_pos rfl]

lemma Inverse_ok (m : GoMatrix ℚ) (hsq : m.lines = m.columns) {d : ℚ}
    (hd : m.Determinant = .ok d) (hdz : d ≠ 0) :
    m.Inverse = .ok (NewMatrix (buildData
      (fun i j => gjNorm m.lines (gjElim m.lines (swapLoop (augInit m) (m.lines - 1)))
        i (m.lines + j)) m.lines m.lines)) := by
  unfold GoMatrix.Inverse
  rw [if_neg (by omega), hd]
  show (if d = 0 then _ else _) = _
  rw [if_neg hdz]

lemma foldl_fix {β : Type} (f : β → ℕ → β) (e : β) :
    ∀ l : List ℕ, (∀ i ∈ l, f e i = e) → l.foldl f e = e := by
  intro l
  induction l with
  | nil => intro _; rfl
  | cons x t ih =>
    intro h
    rw [List.foldl_cons, h x (by simp)]
    exact ih fun i hi => h i (by simp [hi])

/-- On the augmented identity grid no row operation changes anything:
the swap condition never holds, every elimination coefficient is `0`,
and every normalization divisor is `1`. -/
lemma inverse_identity {n : ℕ} (hn : 1 ≤ n) :
    (NewIdentityMatrix n).Inverse = .ok (NewIdentityMatrix n) := by
  have hdet : (NewIdentityMatrix n).Determinant = .ok 1 := Determinant_identity hn
  rw [Inverse_ok _ rfl hdet one_ne_zero]
  have hl : (NewIdentityMatrix n).lines = n := rfl
  rw [hl]
  have hE : ∀ i j, augInit (NewIdentityMatrix n) i j =
      if j < n then idA n i j else if j = i + n then 1 else 0 := fun i j => rfl
  have hE0 : ∀ i, augInit (NewIdentityMatrix n) i 0 = if i = 0 then 1 else 0 := by
    intro i
    rw [hE, if_pos (by omega), idA_eq]
    by_cases hi : i = 0
    · rw [if_pos (by omega), if_pos hi]
    · rw [if_neg (by omega), if_neg hi]
  have hswap : ∀ c, swapLoop (augInit (NewIdentityMatrix n)) c =
      augInit (NewIdentityMatrix n) := by
    intro c
    induction c with
    | zero => rfl
    | succ c ih =>
      show swapLoop _ (c + 1) = _
      unfold swapLoop
      rw [if_neg, ih]
      rw [hE0, hE0]
      by_cases hc : c = 0
      · rw [if_pos hc, if_neg (by omega)]
        norm_num
      · rw [if_neg hc, if_neg (by omega)]
        norm_num
  have hdiag1 : ∀ i, i < n → augInit (NewIdentityMatrix n) i i = 1 := by
    intro i hi
    rw [hE, if_pos hi, idA_eq, if_pos ⟨rfl, hi⟩]
  have hoff : ∀ i j, i < n → j ≠ i → augInit (NewIdentityMatrix n) j i = 0 := by
    intro i j hi hji
    rw [hE, if_pos hi, idA_eq, if_neg (by omega)]
  have helim : gjElim n (augInit (NewIdentityMatrix n)) = augInit (NewIdentityMatrix n) := by
    refine foldl_fix _ _ _ fun i hi => ?_
    rw [List.mem_range] at hi
    refine foldl_fix _ _ _ fun j hj => ?_
    rw [List.mem_range] at hj
    by_cases hji : j = i
    · rw [if_pos hji]
    · rw [if_neg hji]
      funext r k
      unfold elimStep
      by_cases hr : r = j
      · rw [if_pos hr, hoff i j hi hji, zero_div, mul_zero, sub_zero, hr]
      · rw [if_neg hr]
  have hnorm : gjNorm n (augInit (NewIdentityMatrix n)) = augInit (NewIdentityMatrix n) := by
    refine foldl_fix _ _ _ fun i hi => ?_
    rw [List.mem_range] at hi
    funext r k
    by_cases hr : r = i
    · rw [if_pos hr, hdiag1 i hi, div_one, hr]
    · rw [if_neg hr]
  rw [hswap, helim, hnorm]
  have hgrid : buildData (fun i j => augInit (NewIdentityMatrix n) i (n + j)) n n =
      buildData (fun i j : ℕ => if j = i then (1 : ℚ) else 0) n n := by
    unfold buildData
    refine List.map_congr_left fun i hi => ?_
    rw [List.mem_range] at hi
    refine List.map_congr_left fun j hj => ?_
    rw [List.mem_range] at hj
    show augInit (NewIdentityMatrix n) i (n + j) = if j = i then (1 : ℚ) else 0
    rw [hE, if_neg (by omega)]
    by_cases hji : j = i
    · rw [if_pos (by omega), if_pos hji]
    · rw [if_neg (by omega), if_neg hji]
  rw [hgrid, NewMatrix_buildData _ (by omega) (by omega)]
  rfl

lemma Sum_ok (A B : GoMatrix ℚ) (hl : A.lines = B.lines) (hc : A.columns = B.columns) :
    A.Sum B = .ok (NewMatrix
      (buildData (fun i j => entry A.data i j + entry B.data i j) A.lines A.columns)) := by
  unfold GoMatrix.Sum
  rw [if_neg]
  push_neg
  exact ⟨hl, hc⟩

lemma Sub_ok (A B : GoMatrix ℚ) (hl : A.lines = B.lines) (hc : A.columns = B.columns) :
    A.Sub B = .ok (NewMatrix
      (buildData (fun i j => entry A.data i j - entry B.data i j) A.lines A.columns)) := by
  unfold GoMatrix.Sub
  rw [if_neg]
  push_neg
  exact ⟨hl, hc⟩

lemma Product_ok (A B : GoMatrix ℚ) (h : A.columns = B.lines) :
    A.Product B = .ok (NewMatrix (buildData
      (fun i j => ∑ k in Finset.range A.columns, entry A.data i k * entry B.data k j)
      A.lines B.columns)) := by
  unfold GoMatrix.Product
  rw [if_neg (by omega)]

lemma entry_of_getElem {d : List (List ℚ)} {i j : ℕ} {r : List ℚ} {v : ℚ}
    (h1 : d[i]? = some r) (h2 : r[j]? = some v) : entry d i j = v := by
  have houter : d.getD i [] = r := by
    rw [List.getD_eq_getElem?_getD, h1, Option.getD_some]
  unfold entry
  rw [houter, List.getD_eq_getElem?_getD, h2, Option.getD_some]

/-! ### The claims -/

/-- C2: the concrete matrix `A = [[2,-1,-2],[-4,6,3],[-4,-2,8]]`, passed
to `LU`, yields exactly `L = [[1,0,0],[-2,1,0],[-2,-1,1]]` and
`U = [[2,-1,-2],[0,4,-1],[0,0,3]]` and no error. -/
theorem claim_C2_concrete_decomposition :
    (NewMatrix ([[(2 : ℚ), -1, -2], [-4, 6, 3], [-4, -2, 8]])).LU =
      .ok (NewMatrix ([[(1 : ℚ), 0, 0], [-2, 1, 0], [-2, -1, 1]]),
           NewMatrix ([[(2 : ℚ), -1, -2], [0, 4, -1], [0, 0, 3]])) := by
  norm_num [GoMatrix.LU, luIter, NewMatrix, empty_matrix, buildData, entry,
    Finset.sum_range_succ, Finset.sum_range_zero, List.range_succ]

/-- C4 counterexample: at `n = 0` the claim fails — `NewIdentityMatrix 0`
is the empty matrix, and `Determinant` returns the `empty matrix` error
instead of succeeding with `1`. -/
theorem claim_C4_counterexample :
    (NewIdentityMatrix 0).Determinant = .error "empty matrix" := by decide

/-- C4 (amended to `n ≥ 1`): the determinant of the identity matrix is
exactly `1`. -/
theorem claim_C4_identity_determinant :
    ∀ n : ℕ, 1 ≤ n → (NewIdentityMatrix n).Determinant = .ok 1 :=
  fun _ hn => Determinant_identity hn

theorem claim_C4_witness :
    1 ≤ 3 ∧ (NewIdentityMatrix 3).Determinant = .ok 1 :=
  ⟨by norm_num, claim_C4_identity_determinant 3 (by norm_num)⟩

/-- C8 counterexample: at `n = 0` the claim fails — `Inverse` of the
empty identity propagates the determinant's `empty matrix` error instead
of succeeding. -/
theorem claim_C8_counterexample :
    (NewIdentityMatrix 0).Inverse = .error "empty matrix" := by decide

/-- C8 (amended to `n ≥ 1`): `Inverse` of the identity succeeds and the
result `Equals` the identity. -/
theorem claim_C8_identity_inverse :
    ∀ n : ℕ, 1 ≤ n → ∃ R, (NewIdentityMatrix n).Inverse = .ok R ∧
      R.Equals (NewIdentityMatrix n) = true :=
  fun n hn => ⟨NewIdentityMatrix n, inverse_identity hn, Equals_refl _⟩

theorem claim_C8_witness :
    1 ≤ 3 ∧ ∃ R, (NewIdentityMatrix 3).Inverse = .ok R ∧
      R.Equals (NewIdentityMatrix 3) = true :=
  ⟨by norm_num, claim_C8_identity_inverse 3 (by norm_num)⟩

/-- C10: on `A = [[0,1],[-1,0]]` (IEEE scalar model `GF`) the computed
determinant is `1`, so Go's `det == 0` test does not fire; the pivot
`augmented[0][0]` left in place by the single column-0 swap pass — the
divisor of the first elimination step — is `0`; `Inverse` performs the
IEEE divisions by it without any zero check and returns, with no error, a
matrix all of whose entries are `NaN`. -/
theorem claim_C10_zero_pivot_nonfinite :
    DeterminantGF (NewMatrix ([[GF.fin 0, GF.fin 1], [GF.fin (-1), GF.fin 0]])) =
        .ok (GF.fin 1) ∧
    (GF.fin 1).feq (GF.fin 0) = false ∧
    swapLoopGF (augInitGF (NewMatrix ([[GF.fin 0, GF.fin 1], [GF.fin (-1), GF.fin 0]])))
        ((NewMatrix ([[GF.fin 0, GF.fin 1], [GF.fin (-1), GF.fin 0]])).lines - 1) 0 0 =
      GF.fin 0 ∧
    InverseGF (NewMatrix ([[GF.fin 0, GF.fin 1], [GF.fin (-1), GF.fin 0]])) =
      .ok (NewMatrix ([[GF.nan, GF.nan], [GF.nan, GF.nan]])) ∧
    hasNonfinite (NewMatrix ([[GF.nan, GF.nan], [GF.nan, GF.nan]])) = true := by
  refine ⟨?_, by decide, ?_, ?_, by decide⟩
  · norm_num [DeterminantGF, entry, NewMatrix, empty_matrix, buildData, List.range_succ,
      GF.mul, GF.sub, GF.mkFin]
  · norm_num [swapLoopGF, swapRowsGF, augInitGF, entry, NewMatrix, empty_matrix, buildData,
      List.range_succ, GF.flt]
  · norm_num [InverseGF, DeterminantGF, entry, NewMatrix, empty_matrix, buildData,
      List.range_succ, augInitGF, swapLoopGF, swapRowsGF, gjElimGF, gjNormGF, elimStepGF,
      GF.mul, GF.sub, GF.div, GF.feq, GF.flt, GF.mkFin]

/-- C3: `Inverse` errors exactly in these cases — `NotSquare` when
`lines ≠ columns`; propagation of the determinant's error, which occurs
exactly for the empty matrix; the singular-matrix error exactly when the
computed determinant is `0`; and in every other case it returns a matrix
and no error. -/
theorem claim_C3_inverse_error_cases (m : GoMatrix ℚ) (hwf : WellFormed m) :
    (m.lines ≠ m.columns → m.Inverse = .error "matrix musts be square") ∧
    (m.lines = m.columns → m.lines = 0 →
      m.Determinant = .error "empty matrix" ∧ m.Inverse = .error "empty matrix") ∧
    (m.lines = m.columns → m.lines ≠ 0 →
      ∃ d, m.Determinant = .ok d ∧
        (d = 0 → m.Inverse = .error "determinant is zero. Matrix cannot be inverted") ∧
        (d ≠ 0 → ∃ R, m.Inverse = .ok R)) := by
  refine ⟨fun h => Inverse_notSquare m h, fun hsq h0 => ?_, fun hsq hne => ?_⟩
  · have hd := Determinant_empty m (Or.inl h0)
    exact ⟨hd, Inverse_detErr m hsq hd⟩
  · obtain ⟨d, hd⟩ := Determinant_ok m hsq hne
    exact ⟨d, hd, fun hdz => Inverse_singular m hsq (hdz ▸ hd),
      fun hdz => ⟨_, Inverse_ok m hsq hd hdz⟩⟩

theorem claim_C3_witness :
    WellFormed (NewMatrix ([[(1 : ℚ), 2], [3, 4]])) ∧
    (((NewMatrix ([[(1 : ℚ), 2], [3, 4]])).lines ≠ (NewMatrix ([[(1 : ℚ), 2], [3, 4]])).columns →
      (NewMatrix ([[(1 : ℚ), 2], [3, 4]])).Inverse = .error "matrix musts be square") ∧
    ((NewMatrix ([[(1 : ℚ), 2], [3, 4]])).lines = (NewMatrix ([[(1 : ℚ), 2], [3, 4]])).columns →
      (NewMatrix ([[(1 : ℚ), 2], [3, 4]])).lines = 0 →
      (NewMatrix ([[(1 : ℚ), 2], [3, 4]])).Determinant = .error "empty matrix" ∧
      (NewMatrix ([[(1 : ℚ), 2], [3, 4]])).Inverse = .error "empty matrix") ∧
    ((NewMatrix ([[(1 : ℚ), 2], [3, 4]])).lines = (NewMatrix ([[(1 : ℚ), 2], [3, 4]])).columns →
      (NewMatrix ([[(1 : ℚ), 2], [3, 4]])).lines ≠ 0 →
      ∃ d, (NewMatrix ([[(1 : ℚ), 2], [3, 4]])).Determinant = .ok d ∧
        (d = 0 → (NewMatrix ([[(1 : ℚ), 2], [3, 4]])).Inverse =
          .error "determinant is zero. Matrix cannot be inverted") ∧
        (d ≠ 0 → ∃ R, (NewMatrix ([[(1 : ℚ), 2], [3, 4]])).Inverse = .ok R))) :=
  ⟨by decide, claim_C3_inverse_error_cases _ (by decide)⟩

/-- C5 counterexample: the claim quantifies over all integers, but at the
in-range-by-the-claim pair `(row, col) = (-1, 1)` the source panics on a
negative slice index (modelled by `.oob`) instead of returning the stored
value: none of the claim's error conditions holds, yet no value is
returned. -/
theorem claim_C5_counterexample :
    (¬((-1 : ℤ) = 0 ∨ (1 : ℤ) = 0 ∨
        ((NewMatrix ([[(1 : ℚ), 2], [3, 4]])).lines : ℤ) < -1 ∨
        ((NewMatrix ([[(1 : ℚ), 2], [3, 4]])).columns : ℤ) < 1)) ∧
    (NewMatrix ([[(1 : ℚ), 2], [3, 4]])).Position (-1) 1 = PosResult.oob := by decide

/-- C5 (amended to non-negative indices): `Position` fails exactly when
`row` or `col` is `0` or exceeds the corresponding dimension, and in
every other case returns the stored value at the 1-based position
(the function is pure — no side effects exist in the model). -/
theorem claim_C5_position_spec (m : GoMatrix ℚ) (hwf : WellFormed m)
    (row col : ℤ) (hr : 0 ≤ row) (hc : 0 ≤ col) :
    ((row = 0 ∨ col = 0 ∨ (m.lines : ℤ) < row ∨ (m.columns : ℤ) < col) →
      ∃ e, m.Position row col = .err e) ∧
    (¬(row = 0 ∨ col = 0 ∨ (m.lines : ℤ) < row ∨ (m.columns : ℤ) < col) →
      m.Position row col = .ok (entry m.data (row.toNat - 1) (col.toNat - 1))) := by
  constructor
  · intro hcond
    unfold GoMatrix.Position
    by_cases h1 : (m.lines : ℤ) < row
    · rw [if_pos h1]; exact ⟨_, rfl⟩
    · rw [if_neg h1]
      by_cases h2 : (m.columns : ℤ) < col
      · rw [if_pos h2]; exact ⟨_, rfl⟩
      · rw [if_neg h2]
        by_cases h3 : row = 0
        · rw [if_pos h3]; exact ⟨_, rfl⟩
        · rw [if_neg h3]
          have h4 : col = 0 := by omega
          rw [if_pos h4]; exact ⟨_, rfl⟩
  · intro hcond
    push_neg at hcond
    obtain ⟨h3, h4, h1, h2⟩ := hcond
    unfold GoMatrix.Position
    rw [if_neg (by omega), if_neg (by omega), if_neg h3, if_neg h4, if_neg (by omega)]
    have hrow1 : (row - 1).toNat < m.data.length := by
      rw [hwf.1]; omega
    obtain ⟨r, hr1⟩ : ∃ r, m.data[(row - 1).toNat]? = some r :=
      ⟨_, List.getElem?_eq_getElem hrow1⟩
    have hrlen : r.length = m.columns := hwf.2.1 r (List.getElem?_mem hr1)
    have hcol1 : (col - 1).toNat < r.length := by rw [hrlen]; omega
    obtain ⟨v, hv⟩ : ∃ v, r[(col - 1).toNat]? = some v :=
      ⟨_, List.getElem?_eq_getElem hcol1⟩
    simp only [hr1, hv]
    have hidx1 : (row - 1).toNat = row.toNat - 1 := by omega
    have hidx2 : (col - 1).toNat = col.toNat - 1 := by omega
    rw [entry_of_getElem (hidx1 ▸ hr1) (hidx2 ▸ hv)]

theorem claim_C5_witness :
    WellFormed (NewMatrix ([[(1 : ℚ), 2], [3, 4]])) ∧ (0 : ℤ) ≤ 1 ∧ (0 : ℤ) ≤ 2 ∧
    ((((1 : ℤ) = 0 ∨ (2 : ℤ) = 0 ∨
        ((NewMatrix ([[(1 : ℚ), 2], [3, 4]])).lines : ℤ) < 1 ∨
        ((NewMatrix ([[(1 : ℚ), 2], [3, 4]])).columns : ℤ) < 2) →
      ∃ e, (NewMatrix ([[(1 : ℚ), 2], [3, 4]])).Position 1 2 = .err e) ∧
    (¬((1 : ℤ) = 0 ∨ (2 : ℤ) = 0 ∨
        ((NewMatrix ([[(1 : ℚ), 2], [3, 4]])).lines : ℤ) < 1 ∨
        ((NewMatrix ([[(1 : ℚ), 2], [3, 4]])).columns : ℤ) < 2) →
      (NewMatrix ([[(1 : ℚ), 2], [3, 4]])).Position 1 2 =
        .ok (entry (NewMatrix ([[(1 : ℚ), 2], [3, 4]])).data ((1 : ℤ).toNat - 1)
          ((2 : ℤ).toNat - 1)))) :=
  ⟨by decide, by decide, by decide,
    claim_C5_position_spec _ (by decide) 1 2 (by decide) (by decide)⟩

/-- C6 (amended to exact arithmetic): for same-shaped matrices whose
entrywise sums are computed exactly (no rounding and no overflow — the
exact-`ℚ` reading of the `float64` loops), `add` then `subtract` of the
same matrix both succeed and round-trip to a matrix `Equals` the
original.  Without the exactness proviso the claim is false of the
program: an overflow counterexample is proved later in this file. -/
theorem claim_C6_add_sub_roundtrip (A B : GoMatrix ℚ)
    (hwfA : WellFormed A) (hwfB : WellFormed B)
    (hl : A.lines = B.lines) (hc : A.columns = B.columns) :
    ∃ S D, A.Sum B = .ok S ∧ S.Sub B = .ok D ∧ D.Equals A = true := by
  by_cases h0 : A.lines = 0
  · have hcA : A.columns = 0 := (hwfA.2.2).mp h0
    have hS : A.Sum B = .ok (empty_matrix : GoMatrix ℚ) := by
      rw [Sum_ok A B hl hc, h0, hcA]
      rfl
    have hD : (empty_matrix : GoMatrix ℚ).Sub B = .ok (empty_matrix : GoMatrix ℚ) := by
      rw [Sub_ok empty_matrix B (show (0 : ℕ) = B.lines by omega)
        (show (0 : ℕ) = B.columns by omega)]
      rfl
    refine ⟨empty_matrix, empty_matrix, hS, hD, ?_⟩
    rw [Equals_eq_true_iff]
    exact ⟨show (0 : ℕ) = A.lines by omega, show (0 : ℕ) = A.columns by omega,
      fun i hi => absurd hi (Nat.not_lt_zero i)⟩
  · have hcA : A.columns ≠ 0 := fun h => h0 ((hwfA.2.2).mpr h)
    have hS : A.Sum B = .ok (⟨A.lines, A.columns,
        buildData (fun i j => entry A.data i j + entry B.data i j) A.lines A.columns⟩ :
        GoMatrix ℚ) := by
      rw [Sum_ok A B hl hc,
        NewMatrix_buildData _ (show 0 < A.lines by omega) (show 0 < A.columns by omega)]
    have hD : (⟨A.lines, A.columns,
        buildData (fun i j => entry A.data i j + entry B.data i j) A.lines A.columns⟩ :
        GoMatrix ℚ).Sub B = .ok (⟨A.lines, A.columns,
        buildData (fun i j =>
          entry (buildData (fun i j => entry A.data i j + entry B.data i j)
            A.lines A.columns) i j - entry B.data i j) A.lines A.columns⟩ :
        GoMatrix ℚ) := by
      rw [Sub_ok ⟨A.lines, A.columns,
          buildData (fun i j => entry A.data i j + entry B.data i j) A.lines A.columns⟩
          B hl hc,
        NewMatrix_buildData _ (show 0 < A.lines by omega) (show 0 < A.columns by omega)]
    refine ⟨_, _, hS, hD, ?_⟩
    rw [Equals_eq_true_iff]
    refine ⟨rfl, rfl, fun i hi j hj => ?_⟩
    have hi' : i < A.lines := hi
    have hj' : j < A.columns := hj
    rw [entry_buildData _ hi' hj', entry_buildData _ hi' hj']
    ring

lemma lines_NewMatrix_buildData {α : Type} (f : ℕ → ℕ → α) {r c : ℕ}
    (hr : 0 < r) (hc : 0 < c) : (NewMatrix (buildData f r c)).lines = r := by
  rw [NewMatrix_buildData f hr hc]

lemma columns_NewMatrix_buildData {α : Type} (f : ℕ → ℕ → α) {r c : ℕ}
    (hr : 0 < r) (hc : 0 < c) : (NewMatrix (buildData f r c)).columns = c := by
  rw [NewMatrix_buildData f hr hc]

lemma data_NewMatrix_buildData {α : Type} (f : ℕ → ℕ → α) {r c : ℕ}
    (hr : 0 < r) (hc : 0 < c) : (NewMatrix (buildData f r c)).data = buildData f r c := by
  rw [NewMatrix_buildData f hr hc]

/-- C1 (amended to exact arithmetic): on a square matrix whose leading
principal minors are all non-zero, and with every elimination step
computed exactly (no rounding and no overflow — the exact-`ℚ` reading of
the `float64` loops), `LU` succeeds with a unit-lower-triangular `L`, an
upper-triangular `U`, and `L.Product U` succeeds with a matrix that
`Equals` the original.  Without the exactness proviso the claim is false
of the program: an overflow counterexample is proved later in this
file. -/
theorem claim_C1_decomposeLU (m : GoMatrix ℚ) (hwf : WellFormed m)
    (hsq : m.lines = m.columns)
    (hmin : ∀ k, k < m.lines →
      (leadingMinor (fun i j => entry m.data i j) (k + 1)).det ≠ 0) :
    ∃ L U, m.LU = .ok (L, U) ∧
      (∀ i, i < m.lines → entry L.data i i = 1) ∧
      (∀ i j, i < j → j < m.lines → entry L.data i j = 0) ∧
      (∀ i j, j < i → i < m.lines → entry U.data i j = 0) ∧
      ∃ P, L.Product U = .ok P ∧ P.Equals m = true := by
  by_cases h0 : m.lines = 0
  · have hLU : m.LU = .ok ((empty_matrix : GoMatrix ℚ), (empty_matrix : GoMatrix ℚ)) := by
      rw [LU_ok m hsq, h0]
      rfl
    refine ⟨empty_matrix, empty_matrix, hLU, ?_, ?_, ?_, empty_matrix, ?_, ?_⟩
    · intro i hi; exact absurd hi (by omega)
    · intro i j hij hj; exact absurd hj (by omega)
    · intro i j hji hi; exact absurd hi (by omega)
    · rw [Product_ok empty_matrix empty_matrix rfl]
      rfl
    · rw [Equals_eq_true_iff]
      exact ⟨show (0 : ℕ) = m.lines by omega, show (0 : ℕ) = m.columns by omega,
        fun i hi => absurd hi (Nat.not_lt_zero i)⟩
  · have hpos : 0 < m.lines := by omega
    have hLe : ∀ i j, i < m.lines → j < m.lines →
        entry (NewMatrix (buildData
          (luIter (fun i k => entry m.data i k) m.lines).1 m.lines m.lines)).data i j =
          Lfin (fun i k => entry m.data i k) i j := by
      intro i j hi hj
      rw [data_NewMatrix_buildData _ hpos hpos, entry_buildData _ hi hj,
        luIter_fst_stab _ m.lines i j hj]
    have hUe : ∀ i j, i < m.lines → j < m.lines →
        entry (NewMatrix (buildData
          (luIter (fun i k => entry m.data i k) m.lines).2 m.lines m.lines)).data i j =
          Ufin (fun i k => entry m.data i k) i j := by
      intro i j hi hj
      rw [data_NewMatrix_buildData _ hpos hpos, entry_buildData _ hi hj,
        luIter_snd_stab _ m.lines i j hi]
    refine ⟨_, _, LU_ok m hsq, ?_, ?_, ?_, ?_⟩
    · intro i hi
      rw [hLe i i hi hi, Lfin_diag]
    · intro i j hij hj
      rw [hLe i j (by omega) hj]
      exact Lfin_above _ j i hij
    · intro i j hji hi
      rw [hUe i j hi (by omega)]
      exact (pivots_of_minors _ hmin i hi).1 j hji
    · have hP := Product_ok
        (NewMatrix (buildData (luIter (fun i k => entry m.data i k) m.lines).1 m.lines m.lines))
        (NewMatrix (buildData (luIter (fun i k => entry m.data i k) m.lines).2 m.lines m.lines))
        (by rw [columns_NewMatrix_buildData _ hpos hpos, lines_NewMatrix_buildData _ hpos hpos])
      rw [columns_NewMatrix_buildData _ hpos hpos, lines_NewMatrix_buildData _ hpos hpos,
        columns_NewMatrix_buildData _ hpos hpos] at hP
      refine ⟨_, hP, ?_⟩
      rw [Equals_eq_true_iff]
      refine ⟨?_, ?_, ?_⟩
      · rw [lines_NewMatrix_buildData _ hpos hpos]
      · rw [columns_NewMatrix_buildData _ hpos hpos]
        exact hsq
      · rw [lines_NewMatrix_buildData _ hpos hpos, columns_NewMatrix_buildData _ hpos hpos]
        intro i hi j hj
        rw [data_NewMatrix_buildData _ hpos hpos, entry_buildData _ hi hj]
        have hsum : ∑ k in Finset.range m.lines,
            entry (NewMatrix (buildData
              (luIter (fun i k => entry m.data i k) m.lines).1 m.lines m.lines)).data i k *
            entry (NewMatrix (buildData
              (luIter (fun i k => entry m.data i k) m.lines).2 m.lines m.lines)).data k j =
            ∑ k in Finset.range m.lines,
              Lfin (fun i k => entry m.data i k) i k *
                Ufin (fun i k => entry m.data i k) k j := by
          refine Finset.sum_congr rfl fun k hk => ?_
          rw [Finset.mem_range] at hk
          rw [hLe i k hi hk, hUe k j hk hj]
        rw [hsum, lu_product (fun i k => entry m.data i k) hi j]

theorem claim_C1_witness :
    WellFormed (NewMatrix ([[(2 : ℚ), -1, -2], [-4, 6, 3], [-4, -2, 8]])) ∧
    (NewMatrix ([[(2 : ℚ), -1, -2], [-4, 6, 3], [-4, -2, 8]])).lines =
      (NewMatrix ([[(2 : ℚ), -1, -2], [-4, 6, 3], [-4, -2, 8]])).columns ∧
    (∀ k, k < (NewMatrix ([[(2 : ℚ), -1, -2], [-4, 6, 3], [-4, -2, 8]])).lines →
      (leadingMinor (fun i j =>
        entry (NewMatrix ([[(2 : ℚ), -1, -2], [-4, 6, 3], [-4, -2, 8]])).data i j)
        (k + 1)).det ≠ 0) ∧
    ∃ L U, (NewMatrix ([[(2 : ℚ), -1, -2], [-4, 6, 3], [-4, -2, 8]])).LU = .ok (L, U) ∧
      (∀ i, i < (NewMatrix ([[(2 : ℚ), -1, -2], [-4, 6, 3], [-4, -2, 8]])).lines →
        entry L.data i i = 1) ∧
      (∀ i j, i < j → j < (NewMatrix ([[(2 : ℚ), -1, -2], [-4, 6, 3], [-4, -2, 8]])).lines →
        entry L.data i j = 0) ∧
      (∀ i j, j < i → i < (NewMatrix ([[(2 : ℚ), -1, -2], [-4, 6, 3], [-4, -2, 8]])).lines →
        entry U.data i j = 0) ∧
      ∃ P, L.Product U = .ok P ∧
        P.Equals (NewMatrix ([[(2 : ℚ), -1, -2], [-4, 6, 3], [-4, -2, 8]])) = true := by
  have hmin : ∀ k, k < (NewMatrix ([[(2 : ℚ), -1, -2], [-4, 6, 3], [-4, -2, 8]])).lines →
      (leadingMinor (fun i j =>
        entry (NewMatrix ([[(2 : ℚ), -1, -2], [-4, 6, 3], [-4, -2, 8]])).data i j)
        (k + 1)).det ≠ 0 := by
    intro k hk
    have hk3 : k < 3 := hk
    interval_cases k
    · rw [show (0 + 1) = 1 from rfl, Matrix.det_fin_one]
      norm_num [leadingMinor, entry, NewMatrix]
    · rw [show (1 + 1) = 2 from rfl, Matrix.det_fin_two]
      norm_num [leadingMinor, entry, NewMatrix]
    · rw [show (2 + 1) = 3 from rfl, Matrix.det_fin_three]
      norm_num [leadingMinor, entry, NewMatrix]
  exact ⟨by decide, by decide, hmin,
    claim_C1_decomposeLU _ (by decide) (by decide) hmin⟩

theorem claim_C6_witness :
    WellFormed (NewMatrix ([[(1 : ℚ), 2], [3, 4]])) ∧
    WellFormed (NewMatrix ([[(5 : ℚ), 6], [7, 8]])) ∧
    (NewMatrix ([[(1 : ℚ), 2], [3, 4]])).lines = (NewMatrix ([[(5 : ℚ), 6], [7, 8]])).lines ∧
    (NewMatrix ([[(1 : ℚ), 2], [3, 4]])).columns =
      (NewMatrix ([[(5 : ℚ), 6], [7, 8]])).columns ∧
    ∃ S D, (NewMatrix ([[(1 : ℚ), 2], [3, 4]])).Sum (NewMatrix ([[(5 : ℚ), 6], [7, 8]])) =
        .ok S ∧
      S.Sub (NewMatrix ([[(5 : ℚ), 6], [7, 8]])) = .ok D ∧
      D.Equals (NewMatrix ([[(1 : ℚ), 2], [3, 4]])) = true :=
  ⟨by decide, by decide, by decide, by decide,
    claim_C6_add_sub_roundtrip _ _ (by decide) (by decide) (by decide) (by decide)⟩

lemma GF.feq_self {x : GF} (h : x ≠ GF.nan) : x.feq x = true := by
  cases x with
  | fin q => simp [GF.feq]
  | inf b => simp [GF.feq]
  | nan => exact absurd rfl h

lemma GF.feq_comm (x y : GF) : x.feq y = y.feq x := by
  cases x with
  | fin q =>
    cases y with
    | fin r =>
      simp only [GF.feq]
      by_cases h : q = r
      · rw [if_pos h, if_pos h.symm]
      · rw [if_neg h, if_neg (Ne.symm h)]
    | inf c => rfl
    | nan => rfl
  | inf b =>
    cases y with
    | fin r => rfl
    | inf c =>
      simp only [GF.feq]
      by_cases h : b = c
      · rw [h]
      · simp [h, Ne.symm h]
    | nan => rfl
  | nan => cases y <;> rfl

lemma EqualsGF_eq_true_iff (m B : GoMatrix GF) :
    EqualsGF m B = true ↔ m.lines = B.lines ∧ m.columns = B.columns ∧
      ∀ i < m.lines, ∀ j < m.columns,
        (entry m.data i j).feq (entry B.data i j) = true := by
  unfold EqualsGF
  by_cases h : m.lines ≠ B.lines ∨ m.columns ≠ B.columns
  · rw [if_pos h]
    simp only [Bool.false_eq_true, false_iff]
    rintro ⟨h1, h2, -⟩
    rcases h with h | h
    · exact h h1
    · exact h h2
  · push_neg at h
    rw [if_neg (by push_neg; exact h)]
    simp [List.all_eq_true, List.mem_range, h.1, h.2]

lemma EqualsGF_comm (m B : GoMatrix GF) : EqualsGF m B = EqualsGF B m := by
  rw [Bool.eq_iff_iff, EqualsGF_eq_true_iff, EqualsGF_eq_true_iff]
  constructor
  · rintro ⟨h1, h2, h3⟩
    refine ⟨h1.symm, h2.symm, fun i hi j hj => ?_⟩
    rw [GF.feq_comm]
    exact h3 i (h1 ▸ hi) j (h2 ▸ hj)
  · rintro ⟨h1, h2, h3⟩
    refine ⟨h1.symm, h2.symm, fun i hi j hj => ?_⟩
    rw [GF.feq_comm]
    exact h3 i (h1 ▸ hi) j (h2 ▸ hj)

lemma hasNaN_false_iff (m : GoMatrix GF) :
    hasNaN m = false ↔ ∀ i < m.lines, ∀ j < m.columns, entry m.data i j ≠ GF.nan := by
  rw [← Bool.not_eq_true]
  unfold hasNaN
  simp [List.any_eq_true, List.mem_range]

/-- C7 counterexample: Go's `Equals` compares entries with the `float64`
`!=`, which is non-reflexive at `NaN` (and `Inverse` itself can return
`NaN` matrices), so a matrix holding a `NaN` entry does not equal
itself. -/
theorem claim_C7_counterexample :
    EqualsGF (NewMatrix ([[GF.nan]])) (NewMatrix ([[GF.nan]])) = false := by decide

/-- C7 (amended): over the IEEE scalar model, `Equals` is reflexive on
every matrix with no `NaN` entry, and `A.Equals B = B.Equals A` for all
matrices. -/
theorem claim_C7_equals_gf :
    (∀ A : GoMatrix GF, hasNaN A = false → EqualsGF A A = true) ∧
    (∀ A B : GoMatrix GF, EqualsGF A B = EqualsGF B A) := by
  constructor
  · intro A hA
    rw [EqualsGF_eq_true_iff]
    exact ⟨rfl, rfl, fun i hi j hj => GF.feq_self ((hasNaN_false_iff A).mp hA i hi j hj)⟩
  · exact EqualsGF_comm

theorem claim_C7_witness :
    hasNaN (NewMatrix ([[GF.fin 1, GF.fin 0], [GF.inf false, GF.fin 2]])) = false ∧
    EqualsGF (NewMatrix ([[GF.fin 1, GF.fin 0], [GF.inf false, GF.fin 2]]))
      (NewMatrix ([[GF.fin 1, GF.fin 0], [GF.inf false, GF.fin 2]])) = true :=
  ⟨by decide, claim_C7_equals_gf.1 _ (by decide)⟩

/-- C6 counterexample: the round-trip is false of the `float64` program.
With `A = B = [[2^1023]]` (exactly representable), the entrywise sum
`2^1023 + 2^1023 = 2^1024` overflows to `+Inf`; subtracting `B` leaves
`+Inf`, and the result does not equal `A` — although both operations
succeed, exactly as the claim requires. -/
theorem claim_C6_counterexample :
    SumGF (NewMatrix ([[GF.fin (2 ^ 1023)]])) (NewMatrix ([[GF.fin (2 ^ 1023)]])) =
      .ok (NewMatrix ([[GF.inf false]])) ∧
    SubGF (NewMatrix ([[GF.inf false]])) (NewMatrix ([[GF.fin (2 ^ 1023)]])) =
      .ok (NewMatrix ([[GF.inf false]])) ∧
    EqualsGF (NewMatrix ([[GF.inf false]])) (NewMatrix ([[GF.fin (2 ^ 1023)]])) = false := by
  refine ⟨?_, ?_, by decide⟩
  · norm_num [SumGF, GF.add, GF.mkFin, entry, NewMatrix, empty_matrix, buildData,
      List.range_succ]
  · norm_num [SubGF, GF.sub, GF.mkFin, entry, NewMatrix, empty_matrix, buildData,
      List.range_succ]

/-- C1 counterexample: the decomposition claim is false of the `float64`
program.  `A = [[1/2, 0], [2^1023, 1]]` has exactly representable entries
and non-zero leading principal minors (`1/2` and `1/2`), yet the quotient
`L[1][0] = 2^1023 / (1/2) = 2^1024` overflows to `+Inf`, after which the
full-range upper loop computes `U[1][0] = 2^1023 − (+Inf)·(1/2) = −Inf`
and `U[1][1] = NaN` (and `L[0][1] = NaN`): `LU` still returns no error,
but `U` is not upper-triangular and `L` is not unit lower-triangular. -/
theorem claim_C1_counterexample :
    (∀ k, k < (NewMatrix ([[(1 / 2 : ℚ), 0], [2 ^ 1023, 1]])).lines →
      (leadingMinor (fun i j =>
        entry (NewMatrix ([[(1 / 2 : ℚ), 0], [2 ^ 1023, 1]])).data i j) (k + 1)).det ≠ 0) ∧
    LUGF (NewMatrix ([[GF.fin (1 / 2), GF.fin 0], [GF.fin (2 ^ 1023), GF.fin 1]])) =
      .ok (NewMatrix ([[GF.fin 1, GF.nan], [GF.inf false, GF.fin 1]]),
           NewMatrix ([[GF.fin (1 / 2), GF.fin 0], [GF.inf true, GF.nan]])) ∧
    entry (NewMatrix ([[GF.fin (1 / 2), GF.fin 0], [GF.inf true, GF.nan]])).data 1 0 =
      GF.inf true := by
  refine ⟨?_, ?_, by decide⟩
  · intro k hk
    have hk2 : k < 2 := hk
    interval_cases k
    · rw [show (0 + 1) = 1 from rfl, Matrix.det_fin_one]
      norm_num [leadingMinor, entry, NewMatrix]
    · rw [show (1 + 1) = 2 from rfl, Matrix.det_fin_two]
      norm_num [leadingMinor, entry, NewMatrix]
  · norm_num [LUGF, luIterGF, sumFoldGF, NewMatrix, empty_matrix, buildData, entry,
      List.range_succ, GF.add, GF.sub, GF.mul, GF.div, GF.feq, GF.mkFin]
